import Mathlib

/-!
Verification of the `monkey_rs` Pratt parser (`src/parser/mod.rs`).

The parser consumes a stream of tokens and produces a `Program` (a list of
statements) together with an ordered list of diagnostic strings.  The token
type, the lexer and the AST display implementations live in sibling modules
that are not part of the parser source file; they are modelled here from the
specification (and from the way `src/parser/mod.rs` constructs and consumes
them), while every parsing function is translated directly from
`src/parser/mod.rs`.

The lexer is modelled as a finite list of tokens: the specification's input
contract says the token source, once it has produced the end-of-input
sentinel, keeps returning it forever, so a token source is represented by the
list of tokens it produces before end-of-input, padded with `Token.EOF` on
exhaustion.  Rust recursion is embedded with an explicit fuel parameter; the
outer `Option` layer of every fueled function is `none` exactly when fuel
runs out (which, as proved below, never happens for fuel linear in the input
length).
-/

namespace Monkey

/-- Token kinds, as referenced by `src/parser/mod.rs` (the `crate::token`
module itself is not under src).  Modelled from the spec: a token carries a
kind tag (keyword, identifier, integer literal, string literal,
operator/punctuation, end-of-input) and its literal source text. -/
inductive Token where
  | IDENT (s : String)
  | INT (s : String)
  | STRING (s : String)
  | ASSIGN
  | PLUS
  | MINUS
  | BANG
  | ASTERISK
  | SLASH
  | LT
  | GT
  | EQ
  | NEQ
  | COMMA
  | SEMICOLON
  | COLON
  | LPAREN
  | RPAREN
  | LBRACE
  | RBRACE
  | LBRACKET
  | RBRACKET
  | FUNCTION
  | LET
  | TRUE
  | FALSE
  | IF
  | ELSE
  | RETURN
  | EOF
deriving DecidableEq, Repr

/-- Modelled from the spec: each token renders (`Display`) as its literal
source text; keywords and operators render as their fixed spelling.  Used by
the AST display and by the `format!` diagnostics of `src/parser/mod.rs`. -/
def Token.literal : Token → String
  | .IDENT s => s
  | .INT s => s
  | .STRING s => s
  | .ASSIGN => "="
  | .PLUS => "+"
  | .MINUS => "-"
  | .BANG => "!"
  | .ASTERISK => "*"
  | .SLASH => "/"
  | .LT => "<"
  | .GT => ">"
  | .EQ => "=="
  | .NEQ => "!="
  | .COMMA => ","
  | .SEMICOLON => ";"
  | .COLON => ":"
  | .LPAREN => "("
  | .RPAREN => ")"
  | .LBRACE => "\x7b"
  | .RBRACE => "\x7d"
  | .LBRACKET => "["
  | .RBRACKET => "]"
  | .FUNCTION => "fn"
  | .LET => "let"
  | .TRUE => "true"
  | .FALSE => "false"
  | .IF => "if"
  | .ELSE => "else"
  | .RETURN => "return"
  | .EOF => ""

/-- The `Debug` quoting of a payload string: surrounding double quotes
(escaping of special characters is not modelled; no claim depends on it). -/
def debugQuote (s : String) : String :=
  "\"" ++ s ++ "\""

/-- Modelled from the spec: the `{:?}` (derived `Debug`) rendering of a
token, used in the "no prefix parse function" and integer-conversion
diagnostics of `src/parser/mod.rs`. -/
def Token.debugFmt : Token → String
  | .IDENT s => "IDENT(" ++ debugQuote s ++ ")"
  | .INT s => "INT(" ++ debugQuote s ++ ")"
  | .STRING s => "STRING(" ++ debugQuote s ++ ")"
  | .ASSIGN => "ASSIGN"
  | .PLUS => "PLUS"
  | .MINUS => "MINUS"
  | .BANG => "BANG"
  | .ASTERISK => "ASTERISK"
  | .SLASH => "SLASH"
  | .LT => "LT"
  | .GT => "GT"
  | .EQ => "EQ"
  | .NEQ => "NEQ"
  | .COMMA => "COMMA"
  | .SEMICOLON => "SEMICOLON"
  | .COLON => "COLON"
  | .LPAREN => "LPAREN"
  | .RPAREN => "RPAREN"
  | .LBRACE => "LBRACE"
  | .RBRACE => "RBRACE"
  | .LBRACKET => "LBRACKET"
  | .RBRACKET => "RBRACKET"
  | .FUNCTION => "FUNCTION"
  | .LET => "LET"
  | .TRUE => "TRUE"
  | .FALSE => "FALSE"
  | .IF => "IF"
  | .ELSE => "ELSE"
  | .RETURN => "RETURN"
  | .EOF => "EOF"

/-- `PrecedenceType` from `src/parser/mod.rs` lines 20-29.  The source
derives `Ord`, comparing by declaration order. -/
inductive PrecedenceType where
  | LOWEST
  | EQUALS
  | LESSGREATER
  | SUM
  | PRODUCT
  | PREFIXLEVEL
  | CALL
deriving DecidableEq, Repr

/-- Numeric rank of a precedence level, mirroring the derived `Ord` of the
Rust C-like enum (declaration order). -/
def PrecedenceType.rank : PrecedenceType → Nat
  | .LOWEST => 0
  | .EQUALS => 1
  | .LESSGREATER => 2
  | .SUM => 3
  | .PRODUCT => 4
  | .PREFIXLEVEL => 5
  | .CALL => 6

/-- The strict comparison `precedence < get_precedence(peek)` used in
`parse_expression` (line 184), via the derived `Ord`. -/
def prec_lt (a b : PrecedenceType) : Bool :=
  a.rank < b.rank

/-- `Identifier` struct (`crate::parser::expression`): a bare token, as
constructed throughout `src/parser/mod.rs` (e.g. lines 91-93, 339-341). -/
structure Identifier where
  token : Token
deriving DecidableEq, Repr

mutual
/-- The `Expression` tagged union (`crate::parser::expression`), with the
fields each variant is constructed with in `src/parser/mod.rs`.  Struct
wrappers are flattened into constructor arguments.  `HashLiteral`'s
`HashMap` is modelled as an association list managed by `insert_pair`
below (the source field is spelled `paris`). -/
inductive Expression where
  | identifier (token : Token)
  | integerLiteral (token : Token) (value : Int)
  | booleanLiteral (token : Token) (value : Bool)
  | stringLiteral (token : Token) (value : String)
  | prefixExpression (token : Token) (right : Expression)
  | infixExpression (token : Token) (left : Expression) (right : Expression)
  | ifExpression (token : Token) (condition : Expression)
      (consequence : BlockStatement) (alternative : Option BlockStatement)
  | functionLiteral (token : Token) (parameters : List Identifier)
      (body : BlockStatement)
  | callExpression (token : Token) (function : Expression)
      (args : List Expression)
  | arrayLiteral (token : Token) (elements : List Expression)
  | hashLiteral (token : Token) (paris : List (Expression × Expression))

/-- `BlockStatement` (`crate::parser::statement`): a token and an ordered
sequence of statements, as built by `parse_block_statement`. -/
inductive BlockStatement where
  | mk (token : Token) (statements : List Statement)

/-- The `Statement` tagged union (`crate::parser::statement`), with the
fields each variant is constructed with in `src/parser/mod.rs`. -/
inductive Statement where
  | letStatement (token : Token) (identifier : Identifier)
      (value : Option Expression)
  | returnStatement (token : Token) (value : Option Expression)
  | expressionStatement (token : Token) (expression : Option Expression)
end

/-- `Program` (`crate::parser::program`): the ordered statement sequence
produced by `parse_program`. -/
structure Program where
  statements : List Statement

mutual
/-- Structural equality on expressions, mirroring the derived
`PartialEq`/`Eq` used as the `HashMap` key equality for hash-literal
pairs. -/
def exprBeq : Expression → Expression → Bool
  | .identifier t, .identifier u => t = u
  | .integerLiteral t v, .integerLiteral u w => t = u && v = w
  | .booleanLiteral t v, .booleanLiteral u w => t = u && v = w
  | .stringLiteral t v, .stringLiteral u w => t = u && v = w
  | .prefixExpression t r, .prefixExpression u s => t = u && exprBeq r s
  | .infixExpression t l r, .infixExpression u m s =>
      t = u && exprBeq l m && exprBeq r s
  | .ifExpression t c k a, .ifExpression u d l b =>
      t = u && exprBeq c d && blockBeq k l && optBlockBeq a b
  | .functionLiteral t ps b, .functionLiteral u qs c =>
      t = u && ps = qs && blockBeq b c
  | .callExpression t f as, .callExpression u g bs =>
      t = u && exprBeq f g && exprsBeq as bs
  | .arrayLiteral t es, .arrayLiteral u fs => t = u && exprsBeq es fs
  | .hashLiteral t ps, .hashLiteral u qs => t = u && pairsBeq ps qs
  | _, _ => false
termination_by structural a => a

def exprsBeq : List Expression → List Expression → Bool
  | [], [] => true
  | a :: as, b :: bs => exprBeq a b && exprsBeq as bs
  | _, _ => false
termination_by structural a => a

def pairsBeq : List (Expression × Expression) → List (Expression × Expression) → Bool
  | [], [] => true
  | (k, v) :: ps, (l, w) :: qs => exprBeq k l && exprBeq v w && pairsBeq ps qs
  | _, _ => false
termination_by structural a => a

def optBlockBeq : Option BlockStatement → Option BlockStatement → Bool
  | none, none => true
  | some a, some b => blockBeq a b
  | _, _ => false
termination_by structural a => a

def blockBeq : BlockStatement → BlockStatement → Bool
  | .mk t ss, .mk u ts => t = u && stmtsBeq ss ts
termination_by structural a => a

def stmtsBeq : List Statement → List Statement → Bool
  | [], [] => true
  | a :: as, b :: bs => stmtBeq a b && stmtsBeq as bs
  | _, _ => false
termination_by structural a => a

def stmtBeq : Statement → Statement → Bool
  | .letStatement t i v, .letStatement u j w => t = u && i = j && optExprBeq v w
  | .returnStatement t v, .returnStatement u w => t = u && optExprBeq v w
  | .expressionStatement t e, .expressionStatement u f =>
      t = u && optExprBeq e f
  | _, _ => false
termination_by structural a => a

def optExprBeq : Option Expression → Option Expression → Bool
  | none, none => true
  | some a, some b => exprBeq a b
  | _, _ => false
termination_by structural a => a
end

/-- `HashMap::insert` on the hash-literal pair store (line 382): if a key
structurally equal to `k` is present its value is replaced, otherwise the
pair is added.  Iteration order of the Rust `HashMap` is unspecified; this
model fixes insertion order, which no claim depends on. -/
def insert_pair (ps : List (Expression × Expression)) (k v : Expression) :
    List (Expression × Expression) :=
  if ps.any fun q => exprBeq q.1 k then
    ps.map fun q => if exprBeq q.1 k then (q.1, v) else q
  else ps ++ [(k, v)]

/-- Rust `str::parse::<i64>` (line 218): optional sign, one or more ASCII
digits, value within the 64-bit signed range; anything else fails. -/
def parse_i64 (s : String) : Option Int :=
  let withSign : Int × List Char :=
    match s.data with
    | '+' :: rest => (1, rest)
    | '-' :: rest => (-1, rest)
    | cs => (1, cs)
  let sign := withSign.1
  let digits := withSign.2
  if digits.isEmpty then none
  else if digits.all fun c => c.isDigit then
    let mag : Nat := digits.foldl (fun acc c => acc * 10 + (c.toNat - 48)) 0
    let v : Int := sign * (mag : Int)
    if -(2 ^ 63) ≤ v ∧ v ≤ 2 ^ 63 - 1 then some v else none
  else none

/-- The parser state.  The Rust `Parser` holds a lexer plus buffered
`cur_token`/`peek_token`; here `toks` is the not-yet-consumed suffix of the
token source's output (so `cur_token` is `toks[0]`, `peek_token` is
`toks[1]`, both padded with `Token.EOF` past exhaustion, exactly as the
source keeps returning the sentinel), and `errors` is the diagnostics
sequence. -/
structure Parser where
  toks : List Token
  errors : List String
deriving DecidableEq, Repr

/-- The buffered current token (`self.cur_token`). -/
def Parser.cur_token (p : Parser) : Token :=
  p.toks.headD Token.EOF

/-- The buffered one-ahead token (`self.peek_token`). -/
def Parser.peek_token (p : Parser) : Token :=
  (p.toks.drop 1).headD Token.EOF

/-- `Parser::next_token` (lines 50-53): shift peek into current and pull the
next token from the source. -/
def Parser.next_token (p : Parser) : Parser :=
  { p with toks := p.toks.tail }

/-- `self.errors.push(msg)`. -/
def Parser.push_error (p : Parser) (msg : String) : Parser :=
  { p with errors := p.errors ++ [msg] }

/-- `Parser::get_precedence` (lines 461-470). -/
def get_precedence : Token → PrecedenceType
  | .EQ | .NEQ => .EQUALS
  | .LT | .GT => .LESSGREATER
  | .PLUS | .MINUS => .SUM
  | .SLASH | .ASTERISK => .PRODUCT
  | .LPAREN => .CALL
  | _ => .LOWEST

/-- The binary-operator pattern of the continuation loop (lines 186-196). -/
def is_infix_op : Token → Bool
  | .PLUS | .MINUS | .SLASH | .ASTERISK | .EQ | .NEQ | .LT | .GT => true
  | _ => false

/-- `Parser::parse_identifier` (lines 210-214). -/
def parse_identifier (p : Parser) : Option Expression × Parser :=
  (some (.identifier p.cur_token), p)

/-- `Parser::parse_integer_literal` (lines 216-227). -/
def parse_integer_literal (int_string : String) (p : Parser) :
    Option Expression × Parser :=
  let token := p.cur_token
  match parse_i64 int_string with
  | some value => (some (.integerLiteral token value), p)
  | none =>
      (none, p.push_error ("count not parse " ++ token.debugFmt ++ " as integer"))

/-- `Parser::parse_bool_literal` (lines 229-234). -/
def parse_bool_literal (value : Bool) (p : Parser) : Option Expression × Parser :=
  (some (.booleanLiteral p.cur_token value), p)

/-- `Parser::parse_string_literal` (lines 236-241): the value is the token's
literal text. -/
def parse_string_literal (p : Parser) : Option Expression × Parser :=
  (some (.stringLiteral p.cur_token p.cur_token.literal), p)

/-- The `while matches!(peek, COMMA)` loop of `parse_fn_parameters`
(lines 343-358), including the closing-parenthesis check after it.  Fueled
like the rest of the parser; the outer `Option` is `none` only on fuel
exhaustion. -/
def fn_params_loop : Nat → List Identifier → Parser →
    Option (Option (List Identifier) × Parser)
  | 0, _, _ => none
  | n + 1, acc, p =>
    if p.peek_token = Token.COMMA then
      let p1 := p.next_token.next_token
      fn_params_loop n (acc ++ [⟨p1.cur_token⟩]) p1
    else if p.peek_token = Token.RPAREN then some (some acc, p.next_token)
    else some (none, p)

/-- `Parser::parse_fn_parameters` (lines 329-359).  Entered with the current
token on the opening parenthesis; note that the token taken as a parameter
is never checked to be an identifier token. -/
def parse_fn_parameters : Nat → Parser → Option (Option (List Identifier) × Parser)
  | 0, _ => none
  | n + 1, p =>
    if p.peek_token = Token.RPAREN then some (some [], p.next_token)
    else
      let p1 := p.next_token
      fn_params_loop n [⟨p1.cur_token⟩] p1

mutual
/-- `Parser::parse_expression` (lines 160-208): prefix dispatch, then the
precedence-climbing continuation loop.  The first argument is fuel; the
outer `Option` is `none` exactly on fuel exhaustion. -/
def parse_expression : Nat → PrecedenceType → Parser → Option (Option Expression × Parser)
  | 0, _, _ => none
  | n + 1, precedence, p =>
    match parse_prefix_dispatch n p with
    | none => none
    | some (none, p1) => some (none, p1)
    | some (some left, p1) => pratt_loop n precedence left p1

/-- The leading-position dispatch of `parse_expression` (lines 161-181),
including the "no prefix parse function" diagnostic. -/
def parse_prefix_dispatch : Nat → Parser → Option (Option Expression × Parser)
  | 0, _ => none
  | n + 1, p =>
    match p.cur_token with
    | .IDENT _ => some (parse_identifier p)
    | .INT s => some (parse_integer_literal s p)
    | .TRUE => some (parse_bool_literal true p)
    | .FALSE => some (parse_bool_literal false p)
    | .LPAREN => parse_grouped_expression n p
    | .IF => parse_if_expression n p
    | .FUNCTION => parse_fn_expression n p
    | .LBRACKET => parse_array_literal n p
    | .LBRACE => parse_hash_literal n p
    | .BANG => parse_prefix_expression n p
    | .MINUS => parse_prefix_expression n p
    | .STRING _ => some (parse_string_literal p)
    | _ =>
      some (none, p.push_error
        ("no prefix parse function for " ++ p.cur_token.debugFmt ++ " found"))

/-- The `while` continuation loop of `parse_expression` (lines 183-205):
extend `left` while the peek token binds strictly tighter than the current
minimum precedence. -/
def pratt_loop : Nat → PrecedenceType → Expression → Parser →
    Option (Option Expression × Parser)
  | 0, _, _, _ => none
  | n + 1, precedence, left, p =>
    if ¬p.peek_token = Token.SEMICOLON ∧
        prec_lt precedence (get_precedence p.peek_token) = true then
      if is_infix_op p.peek_token = true then
        match parse_infix_expression n left p.next_token with
        | none => none
        | some (none, p2) => some (none, p2)
        | some (some l2, p2) => pratt_loop n precedence l2 p2
      else if p.peek_token = Token.LPAREN then
        match parse_call_expression n left p.next_token with
        | none => none
        | some (none, p2) => some (none, p2)
        | some (some l2, p2) => pratt_loop n precedence l2 p2
      else some (some left, p)
    else some (some left, p)

/-- `Parser::parse_grouped_expression` (lines 243-253): on a missing `)` the
whole group fails with no extra diagnostic. -/
def parse_grouped_expression : Nat → Parser → Option (Option Expression × Parser)
  | 0, _ => none
  | n + 1, p =>
    match parse_expression n .LOWEST p.next_token with
    | none => none
    | some (exp, p2) =>
      if p2.peek_token = Token.RPAREN then some (exp, p2.next_token)
      else some (none, p2)

/-- `Parser::parse_if_expression` (lines 255-301). -/
def parse_if_expression : Nat → Parser → Option (Option Expression × Parser)
  | 0, _ => none
  | n + 1, p =>
    let token := p.cur_token
    if p.peek_token = Token.LPAREN then
      let p2 := p.next_token.next_token
      match parse_expression n .LOWEST p2 with
      | none => none
      | some (none, p3) => some (none, p3)
      | some (some condition, p3) =>
        if p3.peek_token = Token.RPAREN then
          let p4 := p3.next_token
          if p4.peek_token = Token.LBRACE then
            let p5 := p4.next_token
            match parse_block_statement n p5 with
            | none => none
            | some (consequence, p6) =>
              if p6.peek_token = Token.ELSE then
                let p7 := p6.next_token
                if p7.peek_token = Token.LBRACE then
                  let p8 := p7.next_token
                  match parse_block_statement n p8 with
                  | none => none
                  | some (alternative, p9) =>
                    some (some (.ifExpression token condition consequence
                      (some alternative)), p9)
                else some (none, p7)
              else
                some (some (.ifExpression token condition consequence none), p6)
          else some (none, p4)
        else some (none, p3)
    else some (none, p)

/-- `Parser::parse_fn_expression` (lines 303-327). -/
def parse_fn_expression : Nat → Parser → Option (Option Expression × Parser)
  | 0, _ => none
  | n + 1, p =>
    let token := p.cur_token
    if p.peek_token = Token.LPAREN then
      match parse_fn_parameters n p.next_token with
      | none => none
      | some (none, p2) => some (none, p2)
      | some (some parameters, p2) =>
        if p2.peek_token = Token.LBRACE then
          match parse_block_statement n p2.next_token with
          | none => none
          | some (body, p4) =>
            some (some (.functionLiteral token parameters body), p4)
        else some (none, p2)
    else some (none, p)

/-- `Parser::parse_array_literal` (lines 361-365). -/
def parse_array_literal : Nat → Parser → Option (Option Expression × Parser)
  | 0, _ => none
  | n + 1, p =>
    let token := p.cur_token
    match parse_expression_list n Token.RBRACKET p with
    | none => none
    | some (none, p1) => some (none, p1)
    | some (some elements, p1) => some (some (.arrayLiteral token elements), p1)

/-- `Parser::parse_hash_literal` (lines 367-400). -/
def parse_hash_literal : Nat → Parser → Option (Option Expression × Parser)
  | 0, _ => none
  | n + 1, p =>
    let token := p.cur_token
    match hash_loop n [] p with
    | none => none
    | some (none, p1) => some (none, p1)
    | some (some paris, p1) =>
      if p1.peek_token = Token.RBRACE then
        some (some (.hashLiteral token paris), p1.next_token)
      else some (none, p1)

/-- The `while !matches!(peek, RBRACE)` loop of `parse_hash_literal`
(lines 370-391), accumulating pairs via `HashMap::insert`. -/
def hash_loop : Nat → List (Expression × Expression) → Parser →
    Option (Option (List (Expression × Expression)) × Parser)
  | 0, _, _ => none
  | n + 1, paris, p =>
    if p.peek_token = Token.RBRACE then some (some paris, p)
    else
      match parse_expression n .LOWEST p.next_token with
      | none => none
      | some (none, p2) => some (none, p2)
      | some (some key, p2) =>
        if p2.peek_token = Token.COLON then
          let p4 := p2.next_token.next_token
          match parse_expression n .LOWEST p4 with
          | none => none
          | some (none, p5) => some (none, p5)
          | some (some value, p5) =>
            let paris2 := insert_pair paris key value
            if p5.peek_token = Token.RBRACE then hash_loop n paris2 p5
            else if p5.peek_token = Token.COMMA then
              hash_loop n paris2 p5.next_token
            else some (none, p5)
        else some (none, p2)

/-- `Parser::parse_prefix_expression` (lines 438-446). -/
def parse_prefix_expression : Nat → Parser → Option (Option Expression × Parser)
  | 0, _ => none
  | n + 1, p =>
    let token := p.cur_token
    match parse_expression n .PREFIXLEVEL p.next_token with
    | none => none
    | some (none, p2) => some (none, p2)
    | some (some right, p2) => some (some (.prefixExpression token right), p2)

/-- `Parser::parse_infix_expression` (lines 448-459), entered with the
current token on the operator. -/
def parse_infix_expression : Nat → Expression → Parser →
    Option (Option Expression × Parser)
  | 0, _, _ => none
  | n + 1, left, p =>
    let token := p.cur_token
    let precedence := get_precedence p.cur_token
    match parse_expression n precedence p.next_token with
    | none => none
    | some (none, p2) => some (none, p2)
    | some (some right, p2) =>
      some (some (.infixExpression token left right), p2)

/-- `Parser::parse_call_expression` (lines 428-436), entered with the
current token on the opening parenthesis. -/
def parse_call_expression : Nat → Expression → Parser →
    Option (Option Expression × Parser)
  | 0, _, _ => none
  | n + 1, function, p =>
    let token := p.cur_token
    match parse_expression_list n Token.RPAREN p with
    | none => none
    | some (none, p1) => some (none, p1)
    | some (some args, p1) =>
      some (some (.callExpression token function args), p1)

/-- `Parser::parse_expression_list` (lines 402-426). -/
def parse_expression_list : Nat → Token → Parser →
    Option (Option (List Expression) × Parser)
  | 0, _, _ => none
  | n + 1, closer, p =>
    if p.peek_token = closer then some (some [], p.next_token)
    else
      match parse_expression n .LOWEST p.next_token with
      | none => none
      | some (none, p2) => some (none, p2)
      | some (some e, p2) => expr_list_loop n closer [e] p2

/-- The `while matches!(peek, COMMA)` loop of `parse_expression_list`
(lines 413-425), including the closing-delimiter check after it. -/
def expr_list_loop : Nat → Token → List Expression → Parser →
    Option (Option (List Expression) × Parser)
  | 0, _, _, _ => none
  | n + 1, closer, acc, p =>
    if p.peek_token = Token.COMMA then
      match parse_expression n .LOWEST p.next_token.next_token with
      | none => none
      | some (none, p2) => some (none, p2)
      | some (some e, p2) => expr_list_loop n closer (acc ++ [e]) p2
    else if p.peek_token = closer then some (some acc, p.next_token)
    else some (none, p)

/-- `Parser::parse_let_statement` (lines 78-117). -/
def parse_let_statement : Nat → Parser → Option (Option Statement × Parser)
  | 0, _ => none
  | n + 1, p =>
    let token := p.cur_token
    match p.peek_token with
    | .IDENT _ =>
      let p1 := p.next_token
      let name : Identifier := ⟨p1.cur_token⟩
      if p1.peek_token = Token.ASSIGN then
        let p3 := p1.next_token.next_token
        match parse_expression n .LOWEST p3 with
        | none => none
        | some (value, p4) =>
          let p5 := if p4.peek_token = Token.SEMICOLON then p4.next_token else p4
          some (some (.letStatement token name value), p5)
      else
        some (none, p1.push_error
          ("expected next token to be Token::ASSIGN, got " ++
            p1.peek_token.literal ++ " instead"))
    | _ =>
      some (none, p.push_error
        ("expected next token to be Token::IDENT, got " ++
          p.peek_token.literal ++ " instead"))

/-- `Parser::parse_return_statement` (lines 119-129). -/
def parse_return_statement : Nat → Parser → Option (Option Statement × Parser)
  | 0, _ => none
  | n + 1, p =>
    let token := p.cur_token
    match parse_expression n .LOWEST p.next_token with
    | none => none
    | some (value, p2) =>
      let p3 := if p2.peek_token = Token.SEMICOLON then p2.next_token else p2
      some (some (.returnStatement token value), p3)

/-- `Parser::parse_expression_statement` (lines 131-142): unconditionally
produces a statement, keeping a possibly-empty expression slot. -/
def parse_expression_statement : Nat → Parser → Option (Option Statement × Parser)
  | 0, _ => none
  | n + 1, p =>
    let token := p.cur_token
    match parse_expression n .LOWEST p with
    | none => none
    | some (expression, p1) =>
      let p2 := if p1.peek_token = Token.SEMICOLON then p1.next_token else p1
      some (some (.expressionStatement token expression), p2)

/-- `Parser::parse_statement` (lines 70-76): dispatch on the current
token. -/
def parse_statement : Nat → Parser → Option (Option Statement × Parser)
  | 0, _ => none
  | n + 1, p =>
    match p.cur_token with
    | .LET => parse_let_statement n p
    | .RETURN => parse_return_statement n p
    | _ => parse_expression_statement n p

/-- `Parser::parse_block_statement` (lines 144-158): always returns a
`BlockStatement`. -/
def parse_block_statement : Nat → Parser → Option (BlockStatement × Parser)
  | 0, _ => none
  | n + 1, p =>
    let token := p.cur_token
    match block_loop n [] p.next_token with
    | none => none
    | some (statements, p1) => some (.mk token statements, p1)

/-- The `while !matches!(cur, RBRACE | EOF)` loop of
`parse_block_statement` (lines 149-155). -/
def block_loop : Nat → List Statement → Parser → Option (List Statement × Parser)
  | 0, _, _ => none
  | n + 1, acc, p =>
    if p.cur_token = Token.RBRACE ∨ p.cur_token = Token.EOF then some (acc, p)
    else
      match parse_statement n p with
      | none => none
      | some (stmt, p1) =>
        let acc2 := match stmt with | some s => acc ++ [s] | none => acc
        block_loop n acc2 p1.next_token

/-- The `while !matches!(cur, EOF)` loop of `parse_program`
(lines 60-65): failed statements are omitted, the cursor always advances. -/
def program_loop : Nat → List Statement → Parser → Option (List Statement × Parser)
  | 0, _, _ => none
  | n + 1, acc, p =>
    if p.cur_token = Token.EOF then some (acc, p)
    else
      match parse_statement n p with
      | none => none
      | some (stmt, p1) =>
        let acc2 := match stmt with | some s => acc ++ [s] | none => acc
        program_loop n acc2 p1.next_token

/-- `Parser::parse_program` (lines 55-68). -/
def parse_program : Nat → Parser → Option (Program × Parser)
  | 0, _ => none
  | n + 1, p =>
    match program_loop n [] p with
    | none => none
    | some (statements, p1) => some ({ statements := statements }, p1)
end

/-- Fuel that (as proved below) always suffices: linear in the number of
tokens the source produces before end-of-input. -/
def fuel_bound (ts : List Token) : Nat :=
  8 * ts.length + 10

/-- Run the parser the way `Parser::new(lexer)` + `parse_program()` does:
start from the full token stream with no diagnostics. -/
def run_parse (ts : List Token) : Option (Program × Parser) :=
  parse_program (fuel_bound ts) { toks := ts, errors := [] }

/-- Comma-space separated join, as used by call/array displays. -/
def joinComma (ss : List String) : String :=
  String.intercalate ", " ss

/-- Plain concatenation, as used by program/block displays. -/
def joinAll (ss : List String) : String :=
  String.join ss

mutual
/-- Modelled from the spec: the canonical display of an expression — every
infix expression fully parenthesized as `(left op right)`, prefix
expressions as `(op operand)`, call expressions as `callee(arg, arg)`,
literals and identifiers as their text (the `Display` impls live in the AST
modules, which are not under src; the shapes are fixed by the spec's §6 and
the expectations of the source's own tests). -/
def display_expression : Expression → String
  | .identifier t => t.literal
  | .integerLiteral _ v => toString v
  | .booleanLiteral _ v => toString v
  | .stringLiteral _ v => v
  | .prefixExpression t r => "(" ++ t.literal ++ display_expression r ++ ")"
  | .infixExpression t l r =>
      "(" ++ display_expression l ++ " " ++ t.literal ++ " " ++
        display_expression r ++ ")"
  | .ifExpression _ c k a =>
      "if" ++ display_expression c ++ " " ++ display_block k ++
        (match a with
         | some b => "else " ++ display_block b
         | none => "")
  | .functionLiteral t ps b =>
      t.literal ++ "(" ++
        joinComma (ps.map fun i => i.token.literal) ++ ") " ++
        display_block b
  | .callExpression _ f as =>
      display_expression f ++ "(" ++ joinComma (display_expr_list as) ++ ")"
  | .arrayLiteral _ es => "[" ++ joinComma (display_expr_list es) ++ "]"
  | .hashLiteral _ ps => "\x7b" ++ joinComma (display_pair_list ps) ++ "\x7d"

def display_expr_list : List Expression → List String
  | [] => []
  | e :: es => display_expression e :: display_expr_list es

def display_pair_list : List (Expression × Expression) → List String
  | [] => []
  | (k, v) :: ps =>
      (display_expression k ++ ":" ++ display_expression v) ::
        display_pair_list ps

def display_block : BlockStatement → String
  | .mk _ ss => joinAll (display_stmt_list ss)

def display_stmt_list : List Statement → List String
  | [] => []
  | s :: ss => display_statement s :: display_stmt_list ss

/-- Modelled from the spec: statement display — an expression statement
renders as its expression (empty when the expression slot is empty), per
the source's own precedence tests. -/
def display_statement : Statement → String
  | .letStatement t i v =>
      t.literal ++ " " ++ i.token.literal ++ " = " ++
        (match v with
         | some e => display_expression e
         | none => "") ++ ";"
  | .returnStatement t v =>
      t.literal ++ " " ++
        (match v with
         | some e => display_expression e
         | none => "") ++ ";"
  | .expressionStatement _ e =>
      match e with
      | some e => display_expression e
      | none => ""
end

/-- Modelled from the spec: `Program` display is the concatenation of its
statements' displays. -/
def display_program (pr : Program) : String :=
  joinAll (display_stmt_list pr.statements)

/-- Whether a token is an identifier token (`matches!(_, Token::IDENT(_))`). -/
def is_ident_token : Token → Bool
  | .IDENT _ => true
  | _ => false

theorem next_toks_len (p : Parser) :
    p.next_token.toks.length ≤ p.toks.length := by
  simp only [Parser.next_token, List.length_tail]
  omega

theorem parse_integer_literal_snd_toks (s : String) (p : Parser) :
    (parse_integer_literal s p).2.toks = p.toks := by
  unfold parse_integer_literal
  cases parse_i64 s <;> simp [Parser.push_error]

theorem len_pos_of_cur {p : Parser} {t : Token} (h : p.cur_token = t)
    (hne : ¬t = Token.EOF) : 1 ≤ p.toks.length := by
  cases hl : p.toks with
  | nil =>
    rw [Parser.cur_token, hl] at h
    simp at h
    exact absurd h.symm hne
  | cons a l => simp

theorem len2_of_peek {p : Parser} {t : Token} (h : p.peek_token = t)
    (hne : ¬t = Token.EOF) : 2 ≤ p.toks.length := by
  rcases hl : p.toks with _ | ⟨a, _ | ⟨b, l⟩⟩ <;>
    rw [Parser.peek_token, hl] at h
  · simp at h
    exact absurd h.symm hne
  · simp at h
    exact absurd h.symm hne
  · simp

set_option maxHeartbeats 1000000 in
mutual
theorem exprBeq_refl : ∀ e : Expression, exprBeq e e = true
  | .identifier _ => by simp [exprBeq]
  | .integerLiteral _ _ => by simp [exprBeq]
  | .booleanLiteral _ _ => by simp [exprBeq]
  | .stringLiteral _ _ => by simp [exprBeq]
  | .prefixExpression _ r => by simp [exprBeq, exprBeq_refl r]
  | .infixExpression _ l r => by simp [exprBeq, exprBeq_refl l, exprBeq_refl r]
  | .ifExpression _ c k a => by
      simp [exprBeq, exprBeq_refl c, blockBeq_refl k, optBlockBeq_refl a]
  | .functionLiteral _ _ b => by simp [exprBeq, blockBeq_refl b]
  | .callExpression _ f as => by
      simp [exprBeq, exprBeq_refl f, exprsBeq_refl as]
  | .arrayLiteral _ es => by simp [exprBeq, exprsBeq_refl es]
  | .hashLiteral _ ps => by simp [exprBeq, pairsBeq_refl ps]

theorem exprsBeq_refl : ∀ es : List Expression, exprsBeq es es = true
  | [] => by simp [exprsBeq]
  | e :: es => by simp [exprsBeq, exprBeq_refl e, exprsBeq_refl es]

theorem pairsBeq_refl :
    ∀ ps : List (Expression × Expression), pairsBeq ps ps = true
  | [] => by simp [pairsBeq]
  | (k, v) :: ps => by
      simp [pairsBeq, exprBeq_refl k, exprBeq_refl v, pairsBeq_refl ps]

theorem optBlockBeq_refl : ∀ a : Option BlockStatement, optBlockBeq a a = true
  | none => by simp [optBlockBeq]
  | some b => by simp [optBlockBeq, blockBeq_refl b]

theorem blockBeq_refl : ∀ b : BlockStatement, blockBeq b b = true
  | .mk _ ss => by simp [blockBeq, stmtsBeq_refl ss]

theorem stmtsBeq_refl : ∀ ss : List Statement, stmtsBeq ss ss = true
  | [] => by simp [stmtsBeq]
  | s :: ss => by simp [stmtsBeq, stmtBeq_refl s, stmtsBeq_refl ss]

theorem stmtBeq_refl : ∀ s : Statement, stmtBeq s s = true
  | .letStatement _ _ v => by simp [stmtBeq, optExprBeq_refl v]
  | .returnStatement _ v => by simp [stmtBeq, optExprBeq_refl v]
  | .expressionStatement _ e => by simp [stmtBeq, optExprBeq_refl e]

theorem optExprBeq_refl : ∀ e : Option Expression, optExprBeq e e = true
  | none => by simp [optExprBeq]
  | some e => by simp [optExprBeq, exprBeq_refl e]
end

/-- C1: on the token stream of `"a + b * c + d / e - f"` the parser reports
zero diagnostics and the program's canonical display is
`"(((a + (b * c)) + (d / e)) - f)"`; moreover `*` and `/` map to the
PRODUCT level, `+` and `-` to the SUM level, and PRODUCT binds strictly
tighter than SUM while SUM does not bind strictly tighter than itself (the
strict comparison driving the continuation loop). -/
theorem claim_C1 :
    (run_parse [Token.IDENT "a", Token.PLUS, Token.IDENT "b", Token.ASTERISK,
      Token.IDENT "c", Token.PLUS, Token.IDENT "d", Token.SLASH,
      Token.IDENT "e", Token.MINUS, Token.IDENT "f"]).map
        (fun r => (r.2.errors, display_program r.1)) =
      some ([], "(((a + (b * c)) + (d / e)) - f)") ∧
    get_precedence Token.ASTERISK = .PRODUCT ∧
    get_precedence Token.SLASH = .PRODUCT ∧
    get_precedence Token.PLUS = .SUM ∧
    get_precedence Token.MINUS = .SUM ∧
    prec_lt .SUM .PRODUCT = true ∧
    prec_lt .SUM .SUM = false := by
  exact ⟨rfl, rfl, rfl, rfl, rfl, rfl, rfl⟩

/-- C2: equal-precedence chains are left-associative: `"a + b + c"` parses
to an expression statement holding `InfixExpression((a + b), +, c)` —
left child the infix `(a + b)`, right child `c` — displaying as
`"((a + b) + c)"`, and `"a * b / c"` displays as `"((a * b) / c)"`. -/
theorem claim_C2 :
    run_parse [Token.IDENT "a", Token.PLUS, Token.IDENT "b", Token.PLUS,
        Token.IDENT "c"] =
      some (⟨[.expressionStatement (Token.IDENT "a")
          (some (.infixExpression Token.PLUS
            (.infixExpression Token.PLUS (.identifier (Token.IDENT "a"))
              (.identifier (Token.IDENT "b")))
            (.identifier (Token.IDENT "c"))))]⟩,
        ⟨[], []⟩) ∧
    (run_parse [Token.IDENT "a", Token.PLUS, Token.IDENT "b", Token.PLUS,
        Token.IDENT "c"]).map (fun r => display_program r.1) =
      some "((a + b) + c)" ∧
    (run_parse [Token.IDENT "a", Token.ASTERISK, Token.IDENT "b",
        Token.SLASH, Token.IDENT "c"]).map (fun r => display_program r.1) =
      some "((a * b) / c)" := by
  exact ⟨rfl, rfl, rfl⟩

/-- C4 counterexample: the parser accepts `fn (1) { x }` with zero
diagnostics, producing a `FunctionLiteral` whose single parameter carries
the integer token `INT("1")`, which is not an identifier token — refuting
the claim that every parameter token is an identifier token. -/
theorem claim_C4_cex :
    run_parse [Token.FUNCTION, Token.LPAREN, Token.INT "1", Token.RPAREN,
        Token.LBRACE, Token.IDENT "x", Token.RBRACE] =
      some (⟨[.expressionStatement Token.FUNCTION
          (some (.functionLiteral Token.FUNCTION [⟨Token.INT "1"⟩]
            (.mk Token.LBRACE
              [.expressionStatement (Token.IDENT "x")
                (some (.identifier (Token.IDENT "x")))])))]⟩,
        ⟨[], []⟩) ∧
    is_ident_token (Token.INT "1") = false := by
  exact ⟨rfl, rfl⟩

/-- C4 amended: `parse_fn_parameters` performs no identifier check — for
any token `t` other than `)` standing in the first parameter position, it
wraps `t` verbatim in an `Identifier` node, so a `FunctionLiteral`
parameter's token is whatever token occupied that position in the stream
(identifier or not). -/
theorem claim_C4_amended (n : Nat) (t : Token) (rest : List Token)
    (es : List String) (h : ¬t = Token.RPAREN) :
    parse_fn_parameters (n + 2) ⟨Token.LPAREN :: t :: Token.RPAREN :: rest, es⟩ =
      some (some [⟨t⟩], ⟨Token.RPAREN :: rest, es⟩) := by
  simp [parse_fn_parameters, fn_params_loop, Parser.peek_token,
    Parser.next_token, Parser.cur_token, h]

/-- Witness for C4's amended theorem at `t = INT("1")`. -/
theorem claim_C4_amended_witness :
    parse_fn_parameters 2 ⟨[Token.LPAREN, Token.INT "1", Token.RPAREN], []⟩ =
      some (some [⟨Token.INT "1"⟩], ⟨[Token.RPAREN], []⟩) :=
  claim_C4_amended 0 (Token.INT "1") [] [] (by decide)

/-- C5: in `parse_let_statement`, a non-identifier peek token records the
diagnostic naming `Token::IDENT` and the actual token and aborts with no
statement; a non-`=` token after the binding identifier records the
diagnostic naming `Token::ASSIGN` and the actual token and aborts likewise;
`parse_statement` dispatches `let` there, and `parse_program`'s loop drops
the aborted statement (the accumulator is unchanged) while still
advancing. -/
theorem claim_C5 (n : Nat) (p : Parser) :
    ((∀ s, ¬p.peek_token = Token.IDENT s) →
      parse_let_statement (n + 1) p =
        some (none, p.push_error
          ("expected next token to be Token::IDENT, got " ++
            p.peek_token.literal ++ " instead"))) ∧
    (∀ s, p.peek_token = Token.IDENT s →
      ¬p.next_token.peek_token = Token.ASSIGN →
      parse_let_statement (n + 1) p =
        some (none, p.next_token.push_error
          ("expected next token to be Token::ASSIGN, got " ++
            p.next_token.peek_token.literal ++ " instead"))) ∧
    (p.cur_token = Token.LET →
      parse_statement (n + 2) p = parse_let_statement (n + 1) p) ∧
    (∀ acc, p.cur_token = Token.LET → (∀ s, ¬p.peek_token = Token.IDENT s) →
      program_loop (n + 3) acc p =
        program_loop (n + 2) acc
          (p.push_error
            ("expected next token to be Token::IDENT, got " ++
              p.peek_token.literal ++ " instead")).next_token) := by
  have hA : (∀ s, ¬p.peek_token = Token.IDENT s) →
      parse_let_statement (n + 1) p =
        some (none, p.push_error
          ("expected next token to be Token::IDENT, got " ++
            p.peek_token.literal ++ " instead")) := by
    intro h
    cases hp : p.peek_token
    case IDENT s => exact (h s hp).elim
    all_goals simp [parse_let_statement, hp]
  have hC : p.cur_token = Token.LET →
      parse_statement (n + 2) p = parse_let_statement (n + 1) p := by
    intro hc
    simp [parse_statement, hc]
  refine ⟨hA, ?_, hC, ?_⟩
  · intro s hp hassign
    simp [parse_let_statement, hp, hassign]
  · intro acc hc h
    have hs : parse_statement (n + 2) p =
        some (none, p.push_error
          ("expected next token to be Token::IDENT, got " ++
            p.peek_token.literal ++ " instead")) := by
      rw [hC hc, hA h]
    have hne : ¬p.cur_token = Token.EOF := by simp [hc]
    simp only [program_loop, hne, if_false, hs]

/-- Witness for C5 on `let = 5;` (peek after `let` is `=`, not an
identifier): a diagnostic naming `Token::IDENT` and the actual token `=`
is recorded and no statement is produced. -/
theorem claim_C5_witness :
    parse_let_statement 1 ⟨[Token.LET, Token.ASSIGN, Token.INT "5"], []⟩ =
      some (none, ⟨[Token.LET, Token.ASSIGN, Token.INT "5"],
        ["expected next token to be Token::IDENT, got = instead"]⟩) :=
  (claim_C5 0 ⟨[Token.LET, Token.ASSIGN, Token.INT "5"], []⟩).1
    (fun s h => by cases h)

/-- C6: if the expression inside a parenthesized group parses but the token
after it is not `)`, the whole group fails — `parse_grouped_expression`
returns no expression — and the state (in particular the diagnostics
sequence) is exactly the one the inner parse left: this abort appends no
diagnostic of its own. -/
theorem claim_C6 (n : Nat) (p : Parser) (e : Option Expression) (p2 : Parser)
    (h : parse_expression n .LOWEST p.next_token = some (e, p2))
    (h2 : ¬p2.peek_token = Token.RPAREN) :
    parse_grouped_expression (n + 1) p = some (none, p2) := by
  simp [parse_grouped_expression, h, h2]

/-- Witness for C6 on the group `( a` with no closing parenthesis. -/
theorem claim_C6_witness :
    parse_grouped_expression 10 ⟨[Token.LPAREN, Token.IDENT "a"], []⟩ =
      some (none, ⟨[Token.IDENT "a"], []⟩) :=
  claim_C6 9 ⟨[Token.LPAREN, Token.IDENT "a"], []⟩
    (some (.identifier (Token.IDENT "a"))) ⟨[Token.IDENT "a"], []⟩
    rfl (by decide)

/-- C7: whenever `parse_expression_statement` completes it yields a
statement (never the no-statement outcome), an `ExpressionStatement`
carrying the current token with whatever the inner expression parse
produced (possibly an empty slot); `parse_statement` reaches it exactly
when the current token is neither `let` nor `return`; and on the input
consisting of the single token `=` (whose expression parse fails) the
program still contains the one `ExpressionStatement` with an empty
expression slot. -/
theorem claim_C7 (n : Nat) (p : Parser) (r : Option Statement) (p1 : Parser) :
    (parse_expression_statement n p = some (r, p1) →
      ∃ e, r = some (.expressionStatement p.cur_token e)) ∧
    (¬p.cur_token = Token.LET → ¬p.cur_token = Token.RETURN →
      parse_statement (n + 1) p = parse_expression_statement n p) ∧
    run_parse [Token.ASSIGN] =
      some (⟨[.expressionStatement Token.ASSIGN none]⟩,
        ⟨[], ["no prefix parse function for ASSIGN found"]⟩) := by
  refine ⟨?_, ?_, rfl⟩
  · intro h
    cases n with
    | zero => simp [parse_expression_statement] at h
    | succ m =>
      simp only [parse_expression_statement] at h
      cases he : parse_expression m .LOWEST p with
      | none => rw [he] at h; simp at h
      | some rr =>
        obtain ⟨e2, p2⟩ := rr
        rw [he] at h
        simp at h
        exact ⟨e2, h.1.symm⟩
  · intro h1 h2
    cases hc : p.cur_token
    case LET => exact (h1 hc).elim
    case RETURN => exact (h2 hc).elim
    all_goals simp [parse_statement, hc]

/-- Witness for C7 on the single token `=`: the inner expression parse
fails, yet an `ExpressionStatement` (with an empty expression slot) is
produced. -/
theorem claim_C7_witness :
    ∃ e, (some (Statement.expressionStatement Token.ASSIGN none) :
        Option Statement) =
      some (.expressionStatement Token.ASSIGN e) :=
  (claim_C7 5 ⟨[Token.ASSIGN], []⟩
    (some (.expressionStatement Token.ASSIGN none))
    ⟨[Token.ASSIGN], ["no prefix parse function for ASSIGN found"]⟩).1 rfl

/-- C8: `parse_integer_literal` produces an `IntegerLiteral` with the
converted 64-bit signed value exactly when the token text converts
(`parse_i64`), leaving the state untouched; when conversion fails it
records the diagnostic mentioning the literal token and yields no
expression; and through `parse_expression` the failure surfaces as a
failed expression node (with the diagnostic) rather than anything
stronger. -/
theorem claim_C8 (s : String) (p : Parser) (n : Nat) (prec : PrecedenceType) :
    (∀ v, parse_i64 s = some v →
      parse_integer_literal s p = (some (.integerLiteral p.cur_token v), p)) ∧
    (parse_i64 s = none →
      parse_integer_literal s p =
        (none, p.push_error
          ("count not parse " ++ p.cur_token.debugFmt ++ " as integer"))) ∧
    (p.cur_token = Token.INT s → parse_i64 s = none →
      parse_expression (n + 2) prec p =
        some (none, p.push_error
          ("count not parse " ++ p.cur_token.debugFmt ++ " as integer"))) := by
  refine ⟨?_, ?_, ?_⟩
  · intro v hv
    simp [parse_integer_literal, hv]
  · intro h0
    simp [parse_integer_literal, h0]
  · intro hc h0
    simp [parse_expression, parse_prefix_dispatch, parse_integer_literal,
      hc, h0]

/-- Witness for C8: `"5"` converts (value 5, state unchanged) while the
out-of-range `"9223372036854775808"` fails with the diagnostic mentioning
the literal token. -/
theorem claim_C8_witness :
    parse_integer_literal "5" ⟨[Token.INT "5"], []⟩ =
      (some (.integerLiteral (Token.INT "5") 5), ⟨[Token.INT "5"], []⟩) ∧
    parse_integer_literal "9223372036854775808"
        ⟨[Token.INT "9223372036854775808"], []⟩ =
      (none, ⟨[Token.INT "9223372036854775808"],
        ["count not parse INT(\"9223372036854775808\") as integer"]⟩) := by
  constructor
  · exact (claim_C8 "5" ⟨[Token.INT "5"], []⟩ 0 .LOWEST).1 5 (by decide)
  · rw [(claim_C8 "9223372036854775808"
      ⟨[Token.INT "9223372036854775808"], []⟩ 0 .LOWEST).2.1 (by decide)]
    rfl

/-- C9: duplicate hash keys follow map-insertion semantics — inserting the
same (structurally equal) key twice retains exactly one pair holding the
second value, for arbitrary key and value expressions; and end to end, the
hash literal source `{k: true, k: false}` parses with zero diagnostics to
a `HashLiteral` whose pair store holds the single entry `(k, false)` —
the value of the last occurrence. -/
theorem claim_C9 :
    (∀ k v1 v2 : Expression,
      insert_pair (insert_pair [] k v1) k v2 = [(k, v2)]) ∧
    run_parse [Token.LBRACE, Token.IDENT "k", Token.COLON, Token.TRUE,
        Token.COMMA, Token.IDENT "k", Token.COLON, Token.FALSE,
        Token.RBRACE] =
      some (⟨[.expressionStatement Token.LBRACE
          (some (.hashLiteral Token.LBRACE
            [(.identifier (Token.IDENT "k"),
              .booleanLiteral Token.FALSE false)]))]⟩,
        ⟨[], []⟩) := by
  refine ⟨?_, rfl⟩
  intro k v1 v2
  simp [insert_pair, exprBeq_refl]

/-- The parser never buffers tokens back: every parsing function's output
state holds at most as many unconsumed tokens as its input state.  One
conjunct per fueled function, proved by induction on fuel. -/
theorem len_mono : ∀ n : Nat,
    (∀ prec p r, parse_expression n prec p = some r →
      r.2.toks.length ≤ p.toks.length) ∧
    (∀ p r, parse_prefix_dispatch n p = some r →
      r.2.toks.length ≤ p.toks.length) ∧
    (∀ prec l p r, pratt_loop n prec l p = some r →
      r.2.toks.length ≤ p.toks.length) ∧
    (∀ p r, parse_grouped_expression n p = some r →
      r.2.toks.length ≤ p.toks.length) ∧
    (∀ p r, parse_if_expression n p = some r →
      r.2.toks.length ≤ p.toks.length) ∧
    (∀ p r, parse_fn_expression n p = some r →
      r.2.toks.length ≤ p.toks.length) ∧
    (∀ p r, parse_array_literal n p = some r →
      r.2.toks.length ≤ p.toks.length) ∧
    (∀ p r, parse_hash_literal n p = some r →
      r.2.toks.length ≤ p.toks.length) ∧
    (∀ acc p r, hash_loop n acc p = some r →
      r.2.toks.length ≤ p.toks.length) ∧
    (∀ p r, parse_prefix_expression n p = some r →
      r.2.toks.length ≤ p.toks.length) ∧
    (∀ l p r, parse_infix_expression n l p = some r →
      r.2.toks.length ≤ p.toks.length) ∧
    (∀ l p r, parse_call_expression n l p = some r →
      r.2.toks.length ≤ p.toks.length) ∧
    (∀ c p r, parse_expression_list n c p = some r →
      r.2.toks.length ≤ p.toks.length) ∧
    (∀ c acc p r, expr_list_loop n c acc p = some r →
      r.2.toks.length ≤ p.toks.length) ∧
    (∀ acc p r, fn_params_loop n acc p = some r →
      r.2.toks.length ≤ p.toks.length) ∧
    (∀ p r, parse_fn_parameters n p = some r →
      r.2.toks.length ≤ p.toks.length) ∧
    (∀ p r, parse_let_statement n p = some r →
      r.2.toks.length ≤ p.toks.length) ∧
    (∀ p r, parse_return_statement n p = some r →
      r.2.toks.length ≤ p.toks.length) ∧
    (∀ p r, parse_expression_statement n p = some r →
      r.2.toks.length ≤ p.toks.length) ∧
    (∀ p r, parse_statement n p = some r →
      r.2.toks.length ≤ p.toks.length) ∧
    (∀ p r, parse_block_statement n p = some r →
      r.2.toks.length ≤ p.toks.length) ∧
    (∀ acc p r, block_loop n acc p = some r →
      r.2.toks.length ≤ p.toks.length) := by
  intro n
  induction n with
  | zero =>
    refine ⟨fun prec p r h => ?_, fun p r h => ?_, fun prec l p r h => ?_,
      fun p r h => ?_, fun p r h => ?_, fun p r h => ?_, fun p r h => ?_,
      fun p r h => ?_, fun acc p r h => ?_, fun p r h => ?_,
      fun l p r h => ?_, fun l p r h => ?_, fun c p r h => ?_,
      fun c acc p r h => ?_, fun acc p r h => ?_, fun p r h => ?_,
      fun p r h => ?_, fun p r h => ?_, fun p r h => ?_, fun p r h => ?_,
      fun p r h => ?_, fun acc p r h => ?_⟩ <;>
        simp only [parse_expression, parse_prefix_dispatch, pratt_loop,
          parse_grouped_expression, parse_if_expression, parse_fn_expression,
          parse_array_literal, parse_hash_literal, hash_loop,
          parse_prefix_expression, parse_infix_expression,
          parse_call_expression, parse_expression_list, expr_list_loop,
          fn_params_loop, parse_fn_parameters, parse_let_statement,
          parse_return_statement, parse_expression_statement,
          parse_statement, parse_block_statement, block_loop] at h <;>
        cases h
  | succ n ih =>
    obtain ⟨ihE, ihD, ihPL, ihG, ihIf, ihFn, ihArr, ihHash, ihHL, ihPre,
      ihInf, ihCall, ihList, ihLL, ihFPL, ihFP, ihLet, ihRet, ihES, ihSt,
      ihBlk, ihBL⟩ := ih
    refine ⟨?_, ?_, ?_, ?_, ?_, ?_, ?_, ?_, ?_, ?_, ?_, ?_, ?_, ?_, ?_,
      ?_, ?_, ?_, ?_, ?_, ?_, ?_⟩
    -- parse_expression
    · intro prec p r h
      simp only [parse_expression] at h
      split at h
      · cases h
      · rename_i p1 heq
        injection h with h2
        subst h2
        exact ihD p _ heq
      · rename_i left p1 heq
        exact le_trans (ihPL prec left p1 r h) (ihD p _ heq)
    -- parse_prefix_dispatch
    · intro p r h
      simp only [parse_prefix_dispatch] at h
      cases hc : p.cur_token <;> rw [hc] at h <;>
        first
          | exact ihG p r h
          | exact ihIf p r h
          | exact ihFn p r h
          | exact ihArr p r h
          | exact ihHash p r h
          | exact ihPre p r h
          | (injection h with h2; subst h2;
             simp [parse_identifier, parse_bool_literal, parse_string_literal,
               Parser.push_error, parse_integer_literal_snd_toks])
    -- pratt_loop
    · intro prec l p r h
      simp only [pratt_loop] at h
      split at h
      · split at h
        · split at h
          · cases h
          · rename_i p2 heq
            injection h with h3
            subst h3
            exact le_trans (ihInf l p.next_token _ heq) (next_toks_len p)
          · rename_i l2 p2 heq
            exact le_trans (ihPL prec l2 p2 r h)
              (le_trans (ihInf l p.next_token _ heq) (next_toks_len p))
        · split at h
          · split at h
            · cases h
            · rename_i p2 heq
              injection h with h3
              subst h3
              exact le_trans (ihCall l p.next_token _ heq) (next_toks_len p)
            · rename_i l2 p2 heq
              exact le_trans (ihPL prec l2 p2 r h)
                (le_trans (ihCall l p.next_token _ heq) (next_toks_len p))
          · injection h with h3
            subst h3
            exact le_refl _
      · injection h with h3
        subst h3
        exact le_refl _
    -- parse_grouped_expression
    · intro p r h
      simp only [parse_grouped_expression] at h
      split at h
      · cases h
      · rename_i eo p2 heq
        have h2 : p2.toks.length ≤ p.toks.length :=
          le_trans (ihE _ _ _ heq) (next_toks_len p)
        split at h
        · injection h with h3
          subst h3
          exact le_trans (next_toks_len p2) h2
        · injection h with h3
          subst h3
          exact h2
    -- parse_if_expression
    · intro p r h
      simp only [parse_if_expression] at h
      split at h
      · split at h
        · cases h
        · rename_i p3 heq
          injection h with h2
          subst h2
          exact le_trans (ihE _ _ _ heq)
            (le_trans (next_toks_len _) (next_toks_len p))
        · rename_i cond p3 heq
          have h3 : p3.toks.length ≤ p.toks.length :=
            le_trans (ihE _ _ _ heq)
              (le_trans (next_toks_len _) (next_toks_len p))
          split at h
          · split at h
            · split at h
              · cases h
              · rename_i cons p6 heqb
                have h6 : p6.toks.length ≤ p.toks.length :=
                  le_trans (ihBlk _ _ heqb)
                    (le_trans (next_toks_len _)
                      (le_trans (next_toks_len _) h3))
                split at h
                · split at h
                  · split at h
                    · cases h
                    · rename_i alt p9 heqb2
                      injection h with h2
                      subst h2
                      exact le_trans (ihBlk _ _ heqb2)
                        (le_trans (next_toks_len _)
                          (le_trans (next_toks_len _) h6))
                  · injection h with h2
                    subst h2
                    exact le_trans (next_toks_len _) h6
                · injection h with h2
                  subst h2
                  exact h6
            · injection h with h2
              subst h2
              exact le_trans (next_toks_len _) h3
          · injection h with h2
            subst h2
            exact h3
      · injection h with h2
        subst h2
        exact le_refl _
    -- parse_fn_expression
    · intro p r h
      simp only [parse_fn_expression] at h
      split at h
      · split at h
        · cases h
        · rename_i p2 heq
          injection h with h3
          subst h3
          exact le_trans (ihFP _ _ heq) (next_toks_len p)
        · rename_i params p2 heq
          have h2 : p2.toks.length ≤ p.toks.length :=
            le_trans (ihFP _ _ heq) (next_toks_len p)
          split at h
          · split at h
            · cases h
            · rename_i body p4 heqb
              injection h with h3
              subst h3
              exact le_trans (ihBlk _ _ heqb)
                (le_trans (next_toks_len _) h2)
          · injection h with h3
            subst h3
            exact h2
      · injection h with h3
        subst h3
        exact le_refl _
    -- parse_array_literal
    · intro p r h
      simp only [parse_array_literal] at h
      split at h
      · cases h
      · rename_i p1 heq
        injection h with h2
        subst h2
        exact ihList _ _ _ heq
      · rename_i es p1 heq
        injection h with h2
        subst h2
        exact ihList _ _ _ heq
    -- parse_hash_literal
    · intro p r h
      simp only [parse_hash_literal] at h
      split at h
      · cases h
      · rename_i p1 heq
        injection h with h2
        subst h2
        exact ihHL _ _ _ heq
      · rename_i ps p1 heq
        have h1 := ihHL _ _ _ heq
        split at h
        · injection h with h2
          subst h2
          exact le_trans (next_toks_len p1) h1
        · injection h with h2
          subst h2
          exact h1
    -- hash_loop
    · intro acc p r h
      simp only [hash_loop] at h
      split at h
      · injection h with h2
        subst h2
        exact le_refl _
      · split at h
        · cases h
        · rename_i p2 heq
          injection h with h3
          subst h3
          exact le_trans (ihE _ _ _ heq) (next_toks_len p)
        · rename_i key p2 heq
          have h2 : p2.toks.length ≤ p.toks.length :=
            le_trans (ihE _ _ _ heq) (next_toks_len p)
          split at h
          · split at h
            · cases h
            · rename_i p5 heqv
              injection h with h3
              subst h3
              exact le_trans (ihE _ _ _ heqv)
                (le_trans (next_toks_len _)
                  (le_trans (next_toks_len _) h2))
            · rename_i v p5 heqv
              have h5 : p5.toks.length ≤ p.toks.length :=
                le_trans (ihE _ _ _ heqv)
                  (le_trans (next_toks_len _)
                    (le_trans (next_toks_len _) h2))
              split at h
              · exact le_trans (ihHL _ _ _ h) h5
              · split at h
                · exact le_trans (ihHL _ _ _ h)
                    (le_trans (next_toks_len _) h5)
                · injection h with h3
                  subst h3
                  exact h5
          · injection h with h3
            subst h3
            exact h2
    -- parse_prefix_expression
    · intro p r h
      simp only [parse_prefix_expression] at h
      split at h
      · cases h
      · rename_i p2 heq
        injection h with h3
        subst h3
        exact le_trans (ihE _ _ _ heq) (next_toks_len p)
      · rename_i right p2 heq
        injection h with h3
        subst h3
        exact le_trans (ihE _ _ (some right, p2) heq) (next_toks_len p)
    -- parse_infix_expression
    · intro l p r h
      simp only [parse_infix_expression] at h
      split at h
      · cases h
      · rename_i p2 heq
        injection h with h3
        subst h3
        exact le_trans (ihE _ _ _ heq) (next_toks_len p)
      · rename_i right p2 heq
        injection h with h3
        subst h3
        exact le_trans (ihE _ _ (some right, p2) heq) (next_toks_len p)
    -- parse_call_expression
    · intro l p r h
      simp only [parse_call_expression] at h
      split at h
      · cases h
      · rename_i p1 heq
        injection h with h2
        subst h2
        exact ihList _ _ _ heq
      · rename_i args p1 heq
        injection h with h2
        subst h2
        exact ihList _ _ _ heq
    -- parse_expression_list
    · intro c p r h
      simp only [parse_expression_list] at h
      split at h
      · injection h with h2
        subst h2
        exact next_toks_len p
      · split at h
        · cases h
        · rename_i p2 heq
          injection h with h3
          subst h3
          exact le_trans (ihE _ _ _ heq) (next_toks_len p)
        · rename_i e p2 heq
          exact le_trans (ihLL _ _ _ _ h)
            (le_trans (ihE _ _ _ heq) (next_toks_len p))
    -- expr_list_loop
    · intro c acc p r h
      simp only [expr_list_loop] at h
      split at h
      · split at h
        · cases h
        · rename_i p2 heq
          injection h with h3
          subst h3
          exact le_trans (ihE _ _ _ heq)
            (le_trans (next_toks_len _) (next_toks_len p))
        · rename_i e p2 heq
          exact le_trans (ihLL _ _ _ _ h)
            (le_trans (ihE _ _ _ heq)
              (le_trans (next_toks_len _) (next_toks_len p)))
      · split at h
        · injection h with h3
          subst h3
          exact next_toks_len p
        · injection h with h3
          subst h3
          exact le_refl _
    -- fn_params_loop
    · intro acc p r h
      simp only [fn_params_loop] at h
      split at h
      · exact le_trans (ihFPL _ _ _ h)
          (le_trans (next_toks_len _) (next_toks_len p))
      · split at h
        · injection h with h2
          subst h2
          exact next_toks_len p
        · injection h with h2
          subst h2
          exact le_refl _
    -- parse_fn_parameters
    · intro p r h
      simp only [parse_fn_parameters] at h
      split at h
      · injection h with h2
        subst h2
        exact next_toks_len p
      · exact le_trans (ihFPL _ _ _ h) (next_toks_len p)
    -- parse_let_statement
    · intro p r h
      simp only [parse_let_statement] at h
      split at h
      · split at h
        · split at h
          · cases h
          · rename_i v p4 heq
            injection h with h2
            subst h2
            have h4 : p4.toks.length ≤ p.toks.length :=
              le_trans (ihE _ _ _ heq)
                (le_trans (next_toks_len _)
                  (le_trans (next_toks_len _) (next_toks_len p)))
            split
            · exact le_trans (next_toks_len _) h4
            · exact h4
        · injection h with h2
          subst h2
          exact next_toks_len p
      · injection h with h2
        subst h2
        exact le_refl _
    -- parse_return_statement
    · intro p r h
      simp only [parse_return_statement] at h
      split at h
      · cases h
      · rename_i v p2 heq
        injection h with h2
        subst h2
        have h2p : p2.toks.length ≤ p.toks.length :=
          le_trans (ihE _ _ _ heq) (next_toks_len p)
        split
        · exact le_trans (next_toks_len _) h2p
        · exact h2p
    -- parse_expression_statement
    · intro p r h
      simp only [parse_expression_statement] at h
      split at h
      · cases h
      · rename_i eo p1 heq
        injection h with h2
        subst h2
        have h1 := ihE _ _ _ heq
        split
        · exact le_trans (next_toks_len _) h1
        · exact h1
    -- parse_statement
    · intro p r h
      simp only [parse_statement] at h
      split at h
      · exact ihLet _ _ h
      · exact ihRet _ _ h
      · exact ihES _ _ h
    -- parse_block_statement
    · intro p r h
      simp only [parse_block_statement] at h
      split at h
      · cases h
      · rename_i ss p1 heq
        injection h with h2
        subst h2
        exact le_trans (ihBL _ _ _ heq) (next_toks_len p)
    -- block_loop
    · intro acc p r h
      simp only [block_loop] at h
      split at h
      · injection h with h2
        subst h2
        exact le_refl _
      · split at h
        · cases h
        · rename_i stmt p1 heq
          exact le_trans (ihBL _ _ _ h)
            (le_trans (next_toks_len _) (ihSt _ _ heq))

theorem next_toks_len_eq (p : Parser) :
    p.next_token.toks.length = p.toks.length - 1 := by
  simp [Parser.next_token, List.length_tail]

theorem len_pos_of_cur_ne {p : Parser} (h : ¬p.cur_token = Token.EOF) :
    1 ≤ p.toks.length := by
  cases hl : p.toks with
  | nil =>
    rw [Parser.cur_token, hl] at h
    simp at h
  | cons a l => simp

theorem is_infix_op_ne_eof {t : Token} (h : is_infix_op t = true) :
    ¬t = Token.EOF := by
  cases t <;> simp_all [is_infix_op]

/-- Fuel sufficiency: with fuel linear in the number of unconsumed tokens
(the per-function constant reflecting the depth of zero-consumption call
chains), no parsing function ever exhausts its fuel.  This is the
termination argument for the embedded parser: every loop iteration and
every recursive descent either consumes at least one token or returns
immediately. -/
theorem no_timeout : ∀ n : Nat,
    (∀ prec p, 8 * p.toks.length + 6 ≤ n →
      (parse_expression n prec p).isSome) ∧
    (∀ p, 8 * p.toks.length + 5 ≤ n → (parse_prefix_dispatch n p).isSome) ∧
    (∀ prec l p, 8 * p.toks.length + 5 ≤ n →
      (pratt_loop n prec l p).isSome) ∧
    (∀ p, 1 ≤ p.toks.length → 8 * p.toks.length + 4 ≤ n →
      (parse_grouped_expression n p).isSome) ∧
    (∀ p, 8 * p.toks.length + 4 ≤ n → (parse_if_expression n p).isSome) ∧
    (∀ p, 8 * p.toks.length + 4 ≤ n → (parse_fn_expression n p).isSome) ∧
    (∀ p, 1 ≤ p.toks.length → 8 * p.toks.length + 4 ≤ n →
      (parse_array_literal n p).isSome) ∧
    (∀ p, 1 ≤ p.toks.length → 8 * p.toks.length + 4 ≤ n →
      (parse_hash_literal n p).isSome) ∧
    (∀ acc p, 1 ≤ p.toks.length → 8 * p.toks.length + 3 ≤ n →
      (hash_loop n acc p).isSome) ∧
    (∀ p, 1 ≤ p.toks.length → 8 * p.toks.length + 4 ≤ n →
      (parse_prefix_expression n p).isSome) ∧
    (∀ l p, 1 ≤ p.toks.length → 8 * p.toks.length + 4 ≤ n →
      (parse_infix_expression n l p).isSome) ∧
    (∀ l p, 1 ≤ p.toks.length → 8 * p.toks.length + 4 ≤ n →
      (parse_call_expression n l p).isSome) ∧
    (∀ c p, 1 ≤ p.toks.length → 8 * p.toks.length + 3 ≤ n →
      (parse_expression_list n c p).isSome) ∧
    (∀ c acc p, 8 * p.toks.length + 3 ≤ n →
      (expr_list_loop n c acc p).isSome) ∧
    (∀ acc p, 8 * p.toks.length + 2 ≤ n → (fn_params_loop n acc p).isSome) ∧
    (∀ p, 8 * p.toks.length + 3 ≤ n → (parse_fn_parameters n p).isSome) ∧
    (∀ p, 8 * p.toks.length + 7 ≤ n → (parse_let_statement n p).isSome) ∧
    (∀ p, 8 * p.toks.length + 7 ≤ n → (parse_return_statement n p).isSome) ∧
    (∀ p, 8 * p.toks.length + 7 ≤ n →
      (parse_expression_statement n p).isSome) ∧
    (∀ p, 8 * p.toks.length + 8 ≤ n → (parse_statement n p).isSome) ∧
    (∀ p, 8 * p.toks.length + 10 ≤ n → (parse_block_statement n p).isSome) ∧
    (∀ acc p, 8 * p.toks.length + 9 ≤ n → (block_loop n acc p).isSome) ∧
    (∀ acc p, 8 * p.toks.length + 9 ≤ n → (program_loop n acc p).isSome) ∧
    (∀ p, 8 * p.toks.length + 10 ≤ n → (parse_program n p).isSome) := by
  intro n
  induction n with
  | zero =>
    refine ⟨fun prec p hn => ?_, fun p hn => ?_, fun prec l p hn => ?_,
      fun p h1 hn => ?_, fun p hn => ?_, fun p hn => ?_, fun p h1 hn => ?_,
      fun p h1 hn => ?_, fun acc p h1 hn => ?_, fun p h1 hn => ?_,
      fun l p h1 hn => ?_, fun l p h1 hn => ?_, fun c p h1 hn => ?_,
      fun c acc p hn => ?_, fun acc p hn => ?_, fun p hn => ?_,
      fun p hn => ?_, fun p hn => ?_, fun p hn => ?_, fun p hn => ?_,
      fun p hn => ?_, fun acc p hn => ?_, fun acc p hn => ?_,
      fun p hn => ?_⟩ <;> exact absurd hn (by omega)
  | succ n ih =>
    obtain ⟨ihE, ihD, ihPL, ihG, ihIf, ihFn, ihArr, ihHash, ihHL, ihPre,
      ihInf, ihCall, ihList, ihLL, ihFPL, ihFP, ihLet, ihRet, ihES, ihSt,
      ihBlk, ihBL, ihPGL, ihPG⟩ := ih
    obtain ⟨lmE, lmD, lmPL, lmG, lmIf, lmFn, lmArr, lmHash, lmHL, lmPre,
      lmInf, lmCall, lmList, lmLL, lmFPL, lmFP, lmLet, lmRet, lmES, lmSt,
      lmBlk, lmBL⟩ := len_mono n
    refine ⟨?_, ?_, ?_, ?_, ?_, ?_, ?_, ?_, ?_, ?_, ?_, ?_, ?_, ?_, ?_,
      ?_, ?_, ?_, ?_, ?_, ?_, ?_, ?_, ?_⟩
    -- parse_expression
    · intro prec p hn
      simp only [parse_expression]
      obtain ⟨rd, hrd⟩ := Option.isSome_iff_exists.mp (ihD p (by omega))
      obtain ⟨eo, p1⟩ := rd
      simp only [hrd]
      cases eo with
      | none => rfl
      | some left =>
        have hp1 : p1.toks.length ≤ p.toks.length := lmD p _ hrd
        exact ihPL prec left p1 (by omega)
    -- parse_prefix_dispatch
    · intro p hn
      simp only [parse_prefix_dispatch]
      cases hc : p.cur_token <;>
        first
          | rfl
          | exact ihG p (len_pos_of_cur hc (by decide)) (by omega)
          | exact ihIf p (by omega)
          | exact ihFn p (by omega)
          | exact ihArr p (len_pos_of_cur hc (by decide)) (by omega)
          | exact ihHash p (len_pos_of_cur hc (by decide)) (by omega)
          | exact ihPre p (len_pos_of_cur hc (by decide)) (by omega)
    -- pratt_loop
    · intro prec l p hn
      simp only [pratt_loop]
      split
      · split
        · rename_i hcond hop
          have hL : 2 ≤ p.toks.length :=
            len2_of_peek rfl (is_infix_op_ne_eof hop)
          have h1 := next_toks_len_eq p
          obtain ⟨ri, hri⟩ := Option.isSome_iff_exists.mp
            (ihInf l p.next_token (by omega) (by omega))
          obtain ⟨eo, p2⟩ := ri
          simp only [hri]
          cases eo with
          | none => rfl
          | some l2 =>
            have hp2 : p2.toks.length ≤ p.next_token.toks.length :=
              lmInf l p.next_token _ hri
            exact ihPL prec l2 p2 (by omega)
        · split
          · rename_i hcond hnop hpk
            have hL : 2 ≤ p.toks.length := len2_of_peek hpk (by decide)
            have h1 := next_toks_len_eq p
            obtain ⟨rc, hrc⟩ := Option.isSome_iff_exists.mp
              (ihCall l p.next_token (by omega) (by omega))
            obtain ⟨eo, p2⟩ := rc
            simp only [hrc]
            cases eo with
            | none => rfl
            | some l2 =>
              have hp2 : p2.toks.length ≤ p.next_token.toks.length :=
                lmCall l p.next_token _ hrc
              exact ihPL prec l2 p2 (by omega)
          · rfl
      · rfl
    -- parse_grouped_expression
    · intro p hL hn
      simp only [parse_grouped_expression]
      have h1 := next_toks_len_eq p
      obtain ⟨re, hre⟩ := Option.isSome_iff_exists.mp
        (ihE .LOWEST p.next_token (by omega))
      obtain ⟨eo, p2⟩ := re
      simp only [hre]
      split <;> rfl
    -- parse_if_expression
    · intro p hn
      simp only [parse_if_expression]
      split
      · rename_i hpk
        have hL : 2 ≤ p.toks.length := len2_of_peek hpk (by decide)
        have h1 := next_toks_len_eq p
        have h2 := next_toks_len_eq p.next_token
        obtain ⟨re, hre⟩ := Option.isSome_iff_exists.mp
          (ihE .LOWEST p.next_token.next_token (by omega))
        obtain ⟨co, p3⟩ := re
        cases co with
        | none => rw [hre]; rfl
        | some cond =>
          have hp3 : p3.toks.length ≤ p.next_token.next_token.toks.length :=
            lmE _ _ _ hre
          simp only [hre]
          split
          · rename_i hrp
            have hL3 : 2 ≤ p3.toks.length := len2_of_peek hrp (by decide)
            have h3 := next_toks_len_eq p3
            split
            · rename_i hlb
              have hL4 : 2 ≤ p3.next_token.toks.length :=
                len2_of_peek hlb (by decide)
              have h4 := next_toks_len_eq p3.next_token
              obtain ⟨rb, hrb⟩ := Option.isSome_iff_exists.mp
                (ihBlk p3.next_token.next_token (by omega))
              obtain ⟨cons, p6⟩ := rb
              have hp6 :
                  p6.toks.length ≤ p3.next_token.next_token.toks.length :=
                lmBlk _ _ hrb
              simp only [hrb]
              split
              · rename_i hel
                have hL6 : 2 ≤ p6.toks.length := len2_of_peek hel (by decide)
                have h6 := next_toks_len_eq p6
                split
                · rename_i hlb2
                  have hL7 : 2 ≤ p6.next_token.toks.length :=
                    len2_of_peek hlb2 (by decide)
                  have h7 := next_toks_len_eq p6.next_token
                  obtain ⟨rb2, hrb2⟩ := Option.isSome_iff_exists.mp
                    (ihBlk p6.next_token.next_token (by omega))
                  obtain ⟨alt, p9⟩ := rb2
                  rw [hrb2]; rfl
                · rfl
              · rfl
            · rfl
          · rfl
      · rfl
    -- parse_fn_expression
    · intro p hn
      simp only [parse_fn_expression]
      split
      · rename_i hpk
        have hL : 2 ≤ p.toks.length := len2_of_peek hpk (by decide)
        have h1 := next_toks_len_eq p
        obtain ⟨rp, hrp⟩ := Option.isSome_iff_exists.mp
          (ihFP p.next_token (by omega))
        obtain ⟨pso, p2⟩ := rp
        cases pso with
        | none => rw [hrp]; rfl
        | some params =>
          have hp2 : p2.toks.length ≤ p.next_token.toks.length :=
            lmFP _ _ hrp
          simp only [hrp]
          split
          · rename_i hlb
            have hL2 : 2 ≤ p2.toks.length := len2_of_peek hlb (by decide)
            have h2 := next_toks_len_eq p2
            obtain ⟨rb, hrb⟩ := Option.isSome_iff_exists.mp
              (ihBlk p2.next_token (by omega))
            obtain ⟨body, p4⟩ := rb
            rw [hrb]; rfl
          · rfl
      · rfl
    -- parse_array_literal
    · intro p hL hn
      simp only [parse_array_literal]
      obtain ⟨rl, hrl⟩ := Option.isSome_iff_exists.mp
        (ihList Token.RBRACKET p hL (by omega))
      obtain ⟨eso, p1⟩ := rl
      simp only [hrl]
      cases eso <;> rfl
    -- parse_hash_literal
    · intro p hL hn
      simp only [parse_hash_literal]
      obtain ⟨rh, hrh⟩ := Option.isSome_iff_exists.mp
        (ihHL [] p hL (by omega))
      obtain ⟨pso, p1⟩ := rh
      cases pso with
      | none => rw [hrh]; rfl
      | some ps =>
        simp only [hrh]
        split <;> rfl
    -- hash_loop
    · intro acc p hL hn
      simp only [hash_loop]
      split
      · rfl
      · have h1 := next_toks_len_eq p
        obtain ⟨rk, hrk⟩ := Option.isSome_iff_exists.mp
          (ihE .LOWEST p.next_token (by omega))
        obtain ⟨ko, p2⟩ := rk
        cases ko with
        | none => rw [hrk]; rfl
        | some key =>
          have hp2 : p2.toks.length ≤ p.next_token.toks.length :=
            lmE _ _ _ hrk
          simp only [hrk]
          split
          · rename_i hcl
            have hL2 : 2 ≤ p2.toks.length := len2_of_peek hcl (by decide)
            have h2 := next_toks_len_eq p2
            have h3 := next_toks_len_eq p2.next_token
            obtain ⟨rv, hrv⟩ := Option.isSome_iff_exists.mp
              (ihE .LOWEST p2.next_token.next_token (by omega))
            obtain ⟨vo, p5⟩ := rv
            cases vo with
            | none => rw [hrv]; rfl
            | some v =>
              have hp5 :
                  p5.toks.length ≤ p2.next_token.next_token.toks.length :=
                lmE _ _ _ hrv
              simp only [hrv]
              split
              · rename_i hrb
                have hL5 : 2 ≤ p5.toks.length := len2_of_peek hrb (by decide)
                exact ihHL _ p5 (by omega) (by omega)
              · split
                · rename_i hnrb hcm
                  have hL5 : 2 ≤ p5.toks.length :=
                    len2_of_peek hcm (by decide)
                  have h5 := next_toks_len_eq p5
                  exact ihHL _ p5.next_token (by omega) (by omega)
                · rfl
          · rfl
    -- parse_prefix_expression
    · intro p hL hn
      simp only [parse_prefix_expression]
      have h1 := next_toks_len_eq p
      obtain ⟨re, hre⟩ := Option.isSome_iff_exists.mp
        (ihE .PREFIXLEVEL p.next_token (by omega))
      obtain ⟨eo, p2⟩ := re
      simp only [hre]
      cases eo <;> rfl
    -- parse_infix_expression
    · intro l p hL hn
      simp only [parse_infix_expression]
      have h1 := next_toks_len_eq p
      obtain ⟨re, hre⟩ := Option.isSome_iff_exists.mp
        (ihE (get_precedence p.cur_token) p.next_token (by omega))
      obtain ⟨eo, p2⟩ := re
      simp only [hre]
      cases eo <;> rfl
    -- parse_call_expression
    · intro l p hL hn
      simp only [parse_call_expression]
      obtain ⟨rl, hrl⟩ := Option.isSome_iff_exists.mp
        (ihList Token.RPAREN p hL (by omega))
      obtain ⟨aso, p1⟩ := rl
      simp only [hrl]
      cases aso <;> rfl
    -- parse_expression_list
    · intro c p hL hn
      simp only [parse_expression_list]
      split
      · rfl
      · have h1 := next_toks_len_eq p
        obtain ⟨re, hre⟩ := Option.isSome_iff_exists.mp
          (ihE .LOWEST p.next_token (by omega))
        obtain ⟨eo, p2⟩ := re
        simp only [hre]
        cases eo with
        | none => rfl
        | some e =>
          have hp2 : p2.toks.length ≤ p.next_token.toks.length :=
            lmE _ _ _ hre
          exact ihLL c _ p2 (by omega)
    -- expr_list_loop
    · intro c acc p hn
      simp only [expr_list_loop]
      split
      · rename_i hcm
        have hL : 2 ≤ p.toks.length := len2_of_peek hcm (by decide)
        have h1 := next_toks_len_eq p
        have h2 := next_toks_len_eq p.next_token
        obtain ⟨re, hre⟩ := Option.isSome_iff_exists.mp
          (ihE .LOWEST p.next_token.next_token (by omega))
        obtain ⟨eo, p2⟩ := re
        simp only [hre]
        cases eo with
        | none => rfl
        | some e =>
          have hp2 : p2.toks.length ≤ p.next_token.next_token.toks.length :=
            lmE _ _ _ hre
          exact ihLL c _ p2 (by omega)
      · split <;> rfl
    -- fn_params_loop
    · intro acc p hn
      simp only [fn_params_loop]
      split
      · rename_i hcm
        have hL : 2 ≤ p.toks.length := len2_of_peek hcm (by decide)
        have h1 := next_toks_len_eq p
        have h2 := next_toks_len_eq p.next_token
        exact ihFPL _ p.next_token.next_token (by omega)
      · split <;> rfl
    -- parse_fn_parameters
    · intro p hn
      simp only [parse_fn_parameters]
      split
      · rfl
      · have h1 := next_toks_len_eq p
        exact ihFPL _ p.next_token (by omega)
    -- parse_let_statement
    · intro p hn
      simp only [parse_let_statement]
      split
      · rename_i s hpk
        have hL : 2 ≤ p.toks.length := len2_of_peek hpk (by simp)
        have h1 := next_toks_len_eq p
        split
        · rename_i hassign
          have hL1 : 2 ≤ p.next_token.toks.length :=
            len2_of_peek hassign (by decide)
          have h2 := next_toks_len_eq p.next_token
          have h3 := next_toks_len_eq p.next_token.next_token
          obtain ⟨re, hre⟩ := Option.isSome_iff_exists.mp
            (ihE .LOWEST p.next_token.next_token.next_token (by omega))
          obtain ⟨v, p4⟩ := re
          simp only [hre]
          rfl
        · rfl
      · rfl
    -- parse_return_statement
    · intro p hn
      simp only [parse_return_statement]
      have h1 := next_toks_len_eq p
      obtain ⟨re, hre⟩ := Option.isSome_iff_exists.mp
        (ihE .LOWEST p.next_token (by omega))
      obtain ⟨v, p2⟩ := re
      simp only [hre]
      rfl
    -- parse_expression_statement
    · intro p hn
      simp only [parse_expression_statement]
      obtain ⟨re, hre⟩ := Option.isSome_iff_exists.mp
        (ihE .LOWEST p (by omega))
      obtain ⟨eo, p1⟩ := re
      simp only [hre]
      rfl
    -- parse_statement
    · intro p hn
      simp only [parse_statement]
      split
      · exact ihLet p (by omega)
      · exact ihRet p (by omega)
      · exact ihES p (by omega)
    -- parse_block_statement
    · intro p hn
      simp only [parse_block_statement]
      have h1 := next_toks_len_eq p
      obtain ⟨rb, hrb⟩ := Option.isSome_iff_exists.mp
        (ihBL [] p.next_token (by omega))
      obtain ⟨ss, p1⟩ := rb
      simp only [hrb]
      rfl
    -- block_loop
    · intro acc p hn
      simp only [block_loop]
      split
      · rfl
      · rename_i hcur
        have hne : ¬p.cur_token = Token.EOF := fun hh => hcur (Or.inr hh)
        have hL : 1 ≤ p.toks.length := len_pos_of_cur_ne hne
        obtain ⟨rs, hrs⟩ := Option.isSome_iff_exists.mp (ihSt p (by omega))
        obtain ⟨stmt, p1⟩ := rs
        simp only [hrs]
        have hp1 : p1.toks.length ≤ p.toks.length := lmSt p _ hrs
        have h2 := next_toks_len_eq p1
        exact ihBL _ p1.next_token (by omega)
    -- program_loop
    · intro acc p hn
      simp only [program_loop]
      split
      · rfl
      · rename_i hne
        have hL : 1 ≤ p.toks.length := len_pos_of_cur_ne hne
        obtain ⟨rs, hrs⟩ := Option.isSome_iff_exists.mp (ihSt p (by omega))
        obtain ⟨stmt, p1⟩ := rs
        simp only [hrs]
        have hp1 : p1.toks.length ≤ p.toks.length := lmSt p _ hrs
        have h2 := next_toks_len_eq p1
        exact ihPGL _ p1.next_token (by omega)
    -- parse_program
    · intro p hn
      simp only [parse_program]
      obtain ⟨rl, hrl⟩ := Option.isSome_iff_exists.mp (ihPGL [] p (by omega))
      obtain ⟨ss, p1⟩ := rl
      simp only [hrl]
      rfl

/-- C3: termination on every input.  Recursion is embedded with explicit
fuel, so termination is the statement that fuel linear in the token count
always suffices: for every token stream (the claim's sentinel-repeating
token sources are exactly what the list-plus-EOF-padding state models,
malformed input included) `parse_program` runs to completion — the
fuel-exhaustion marker never occurs — and `run_parse`, which supplies
`fuel_bound`, always returns a result. -/
theorem claim_C3 (ts : List Token) (es : List String) (fuel : Nat)
    (h : fuel_bound ts ≤ fuel) :
    (parse_program fuel { toks := ts, errors := es }).isSome ∧
    (run_parse ts).isSome := by
  constructor
  · obtain ⟨-, -, -, -, -, -, -, -, -, -, -, -, -, -, -, -, -, -, -, -, -,
      -, -, hPG⟩ := no_timeout fuel
    apply hPG
    simp only [fuel_bound] at h
    simpa using h
  · obtain ⟨-, -, -, -, -, -, -, -, -, -, -, -, -, -, -, -, -, -, -, -, -,
      -, -, hPG⟩ := no_timeout (fuel_bound ts)
    apply hPG
    simp [fuel_bound]

/-- Witness for C3 on the malformed input `let =` with exactly the linear
fuel bound. -/
theorem claim_C3_witness :
    (parse_program 26 { toks := [Token.LET, Token.ASSIGN], errors := [] }).isSome ∧
    (run_parse [Token.LET, Token.ASSIGN]).isSome :=
  claim_C3 [Token.LET, Token.ASSIGN] [] 26 (by decide)

/-- C10: `parse_block_statement` is total — with fuel linear in the token
count it always completes, and its Rust return type has no failure case,
so a `BlockStatement` is always produced — and it silently tolerates an
unterminated block: on `{ x` (end-of-input before any `}`) it returns the
one collected statement with the diagnostics sequence unchanged, i.e. no
diagnostic about the missing `}` is appended, for any identifier `x` and
any prior diagnostics. -/
theorem claim_C10 :
    (∀ fuel p, 8 * p.toks.length + 10 ≤ fuel →
      (parse_block_statement fuel p).isSome) ∧
    (∀ (x : String) (es : List String),
      parse_block_statement 30
          { toks := [Token.LBRACE, Token.IDENT x], errors := es } =
        some (.mk Token.LBRACE
          [.expressionStatement (Token.IDENT x)
            (some (.identifier (Token.IDENT x)))],
          { toks := [], errors := es })) := by
  constructor
  · intro fuel p h
    obtain ⟨-, -, -, -, -, -, -, -, -, -, -, -, -, -, -, -, -, -, -, -,
      hBlk, -, -, -⟩ := no_timeout fuel
    exact hBlk p h
  · intro x es
    rfl

/-- Witness for C10's fuel-sufficiency conjunct at a block opening with one
token. -/
theorem claim_C10_witness :
    (parse_block_statement 30 { toks := [Token.LBRACE], errors := [] }).isSome :=
  claim_C10.1 30 { toks := [Token.LBRACE], errors := [] } (by decide)

end Monkey
